import Mathlib

/-!
Shallow embedding of `src/pce/solver.py` (class `PotluckSolver`) and a
verification of the specification's claims about it.

Modelling conventions:

* Python action tuples (strategy profiles and opponent tuples) are `List ℕ`.
* The utility table `self.game[fullProfile][player]` is a total function
  `List ℕ → ℕ → ℚ`.
* The external LP backend handed to `pulp` is abstracted as a function from
  the LP instance built by `checkBestResponse` to a pulp status code
  (`Int`); pulp's status constants are `LpStatusOptimal = 1`,
  `LpStatusNotSolved = 0`, `LpStatusInfeasible = -1`,
  `LpStatusUnbounded = -2`, `LpStatusUndefined = -3`.
* A Python `set` of tuples is modelled as a deduplicated list (`List.dedup`),
  which fixes one deterministic enumeration order (`list(consistent)`).
* With an empty variable list, `sum(variables) == 1` evaluates to the Python
  bool `False`, and pulp's `LpProblem.__iadd__` raises
  `TypeError("A False object cannot be passed as a constraint")`; this crash
  is modelled by `Except.error`.
-/

namespace PCE

/-- Model of `itertools.product(range(numActions), repeat=numPlayers)` as
computed in `PotluckSolver.__init__` (first coordinate varies slowest). -/
def allProfiles (numActions : ℕ) : ℕ → List (List ℕ)
  | 0 => [[]]
  | n + 1 => (List.range numActions).flatMap fun a => (allProfiles numActions n).map (a :: ·)

/-- Model of an undirected `networkx.Graph`: a node list and an edge list. -/
structure Graph where
  nodes : List ℕ
  edges : List (ℕ × ℕ)

/-- Model of `networkx` neighbor iteration `self.network.neighbors(v)`:
every node adjacent to `v` through some edge. -/
def Graph.neighbors (g : Graph) (v : ℕ) : List ℕ :=
  g.edges.filterMap fun e =>
    if e.1 = v then some e.2 else if e.2 = v then some e.1 else none

/-- The data of the LP that `checkBestResponse` hands to the external solver:
`nVars` decision variables, each bounded in `[0, 1]`, the probability
constraint that all variables sum to `1`, a constant objective, and one
`≤`-constraint per action, given as a pair of coefficient lists
`(lhs, rhs)` meaning `∑ j, lhs[j]·x j ≤ ∑ j, rhs[j]·x j`. -/
structure LPData where
  nVars : ℕ
  leConstraints : List (List ℚ × List ℚ)

/-- Mathematical feasibility of an `LPData`: some assignment of the
`nVars` variables in `[0, 1]` sums to `1` and satisfies every row. -/
def LPData.Feasible (lp : LPData) : Prop :=
  ∃ x : ℕ → ℚ,
    (∀ j, j < lp.nVars → 0 ≤ x j ∧ x j ≤ 1) ∧
    (∑ j ∈ Finset.range lp.nVars, x j) = 1 ∧
    ∀ c ∈ lp.leConstraints,
      (∑ j ∈ Finset.range lp.nVars, c.1.getD j 0 * x j) ≤
        ∑ j ∈ Finset.range lp.nVars, c.2.getD j 0 * x j

/-- Model of the game wrapper (`PotluckGame`): player count, uniform action
count, and the utility table. -/
structure PotluckGameWrapper where
  numPlayers : ℕ
  numActions : ℕ
  game : List ℕ → ℕ → ℚ

/-- Model of the `PotluckSolver` object after `__init__`: the game wrapper,
the external LP solver backend, and the (non-`None`) network. -/
structure PotluckSolver where
  gameWrapper : PotluckGameWrapper
  solver : LPData → Int
  network : Graph

/-- Model of `PotluckSolver.__init__`: stores its arguments; the only
validation performed is `assert self.network is not None`, modelled by
returning `none` (the `AssertionError`) exactly when `network` is `None`. -/
def PotluckSolver.init (gw : PotluckGameWrapper) (solver : LPData → Int)
    (network : Option Graph) : Option PotluckSolver :=
  match network with
  | none => none
  | some g => some ⟨gw, solver, g⟩

def PotluckSolver.numPlayers (N : PotluckSolver) : ℕ := N.gameWrapper.numPlayers

def PotluckSolver.numActions (N : PotluckSolver) : ℕ := N.gameWrapper.numActions

def PotluckSolver.game (N : PotluckSolver) : List ℕ → ℕ → ℚ := N.gameWrapper.game

/-- Initial candidate set `self.profiles` computed in `__init__`. -/
def PotluckSolver.profiles (N : PotluckSolver) : List (List ℕ) :=
  allProfiles N.numActions N.numPlayers

/-- Model of `list(p)[:player] + list(p)[player + 1:]`: the opponent tuple of
profile `p` from `player`'s point of view. -/
def oppTuple (player : ℕ) (p : List ℕ) : List ℕ :=
  p.take player ++ p.drop (player + 1)

/-- Model of `t[:player] + (action,) + t[player:]` used in
`checkBestResponse`: reinsert `action` at `player`'s coordinate of the
opponent tuple `t`. -/
def insertAction (player action : ℕ) (t : List ℕ) : List ℕ :=
  t.take player ++ action :: t.drop player

/-- Model of `PotluckSolver.consistentStrategies`: keep the profiles of
`profilesToConsider` that agree with `profile` on every neighbor of
`player`, strip `player`'s own action, and collect the results into a set
(modelled as a deduplicated list). -/
def PotluckSolver.consistentStrategies (N : PotluckSolver) (profile : List ℕ)
    (player : ℕ) (profilesToConsider : List (List ℕ)) : List (List ℕ) :=
  ((profilesToConsider.filter fun p =>
      (N.network.neighbors player).all fun i => profile.getD i 0 == p.getD i 0).map
    (oppTuple player)).dedup

/-- The LP built inside `PotluckSolver.checkBestResponse`: one `[0, 1]`
variable per element of `orderedConsistent`, the constraint that they sum
to `1`, and for each `action` in `range(numActions)` the constraint that
the expected utility of `action` is at most the expected utility of the
fixed action `profile[player]`, all expected over the conjecture. -/
def PotluckSolver.buildBestResponseLP (N : PotluckSolver) (profile : List ℕ)
    (player : ℕ) (orderedConsistent : List (List ℕ)) : LPData :=
  { nVars := orderedConsistent.length
    leConstraints := (List.range N.numActions).map fun action =>
      (orderedConsistent.map fun t => N.game (insertAction player action t) player,
       orderedConsistent.map fun t =>
         N.game (insertAction player (profile.getD player 0) t) player) }

/-- Model of `PotluckSolver.checkBestResponse`: build the LP over the given
consistent set and run the external solver on it; return `false` exactly
when the reported status is `-1` (`LpStatusInfeasible`) and `true` for every
other status.  When `consistent` is empty, `sum(variables) == 1` is the
Python bool `False` and `prob += False` raises a `TypeError` inside pulp
before the solver is ever invoked, modelled by `Except.error`. -/
def PotluckSolver.checkBestResponse (N : PotluckSolver) (profile : List ℕ)
    (player : ℕ) (consistent : List (List ℕ)) : Except String Bool :=
  if consistent.isEmpty then
    Except.error "A False object cannot be passed as a constraint"
  else if N.solver (N.buildBestResponseLP profile player consistent) = -1 then
    Except.ok false
  else
    Except.ok true

/-- Model of the inner `for player in range(self.gameWrapper.numPlayers)`
loop of `reduceProfiles`: returns `ok true` when every player's check
succeeds, `ok false` at the first failing player (the `break`), and
propagates a raised exception. -/
def PotluckSolver.checkAllPlayers (N : PotluckSolver) (profile : List ℕ)
    (S : List (List ℕ)) : List ℕ → Except String Bool
  | [] => Except.ok true
  | player :: rest =>
    match N.checkBestResponse profile player (N.consistentStrategies profile player S) with
    | Except.error e => Except.error e
    | Except.ok false => Except.ok false
    | Except.ok true => N.checkAllPlayers profile S rest

/-- Recursion over the profiles of the round-start snapshot `S` performed by
`reduceProfiles`: a profile is appended to the output exactly when
`checkAllPlayers` returns `ok true` for it. -/
def PotluckSolver.reduceProfilesAux (N : PotluckSolver) (S : List (List ℕ)) :
    List (List ℕ) → Except String (List (List ℕ))
  | [] => Except.ok []
  | profile :: rest =>
    match N.checkAllPlayers profile S (List.range N.numPlayers) with
    | Except.error e => Except.error e
    | Except.ok ok =>
      match N.reduceProfilesAux S rest with
      | Except.error e => Except.error e
      | Except.ok tail => Except.ok (if ok then profile :: tail else tail)

/-- Model of `PotluckSolver.reduceProfiles` (operator `B_G`): one elimination
round over the round-start snapshot `profilesToConsider`. -/
def PotluckSolver.reduceProfiles (N : PotluckSolver)
    (profilesToConsider : List (List ℕ)) : Except String (List (List ℕ)) :=
  N.reduceProfilesAux profilesToConsider profilesToConsider

/-- Fuel-indexed model of the `while previous_size - current_size > 0` loop
of `PotluckSolver.solve`: apply one reduction round and recurse exactly when
the candidate set strictly shrank; also count the number of rounds
performed.  The `0` fuel case is unreachable from `solve` because each
recursive call strictly decreases the candidate-set length. -/
def PotluckSolver.solveLoop (N : PotluckSolver) :
    ℕ → List (List ℕ) → Except String (List (List ℕ) × ℕ)
  | 0, S => Except.ok (S, 0)
  | fuel + 1, S =>
    (N.reduceProfiles S).bind fun S2 =>
      if S2.length < S.length then
        (N.solveLoop fuel S2).map fun r => (r.1, r.2 + 1)
      else
        Except.ok (S2, 1)

/-- Model of `PotluckSolver.solve`: run the elimination loop from the full
Cartesian product `self.profiles` and return the surviving profiles. -/
def PotluckSolver.solve (N : PotluckSolver) : Except String (List (List ℕ)) :=
  (N.solveLoop (N.profiles.length + 1) N.profiles).map Prod.fst

/-- Number of applications of `reduceProfiles` performed by `solve` (the
number of iterations of its `while` loop). -/
def PotluckSolver.solveRounds (N : PotluckSolver) : Except String ℕ :=
  (N.solveLoop (N.profiles.length + 1) N.profiles).map Prod.snd

/-- Boolean outcome of the solver on the LP that `checkBestResponse` builds
for `profile`, `player` and the consistent set computed from snapshot `S`;
used to state what `reduceProfiles` computes. -/
def PotluckSolver.brOk (N : PotluckSolver) (profile : List ℕ) (player : ℕ)
    (S : List (List ℕ)) : Bool :=
  N.solver (N.buildBestResponseLP profile player
    (N.consistentStrategies profile player S)) != -1

/-- The list that one round of `reduceProfiles` on snapshot `S` evaluates to
(its exception-free normal form, proved in `reduceProfiles_eq_filter`). -/
def PotluckSolver.reduceFilter (N : PotluckSolver) (S : List (List ℕ)) : List (List ℕ) :=
  S.filter fun p => (List.range N.numPlayers).all fun i => N.brOk p i S

/-- Specification-side statement (following the specification's wording, for
comparison with the LP the code builds): there exists a probability
distribution — non-negative weights in `[0, 1]` summing to `1` — over the
support under which, for every action `a` of the player, the expected
utility of playing `a` is at most the expected utility of the fixed
action. -/
def existsRationalizingConjecture (game : List ℕ → ℕ → ℚ) (numActions player
    fixedAction : ℕ) (support : List (List ℕ)) : Prop :=
  ∃ w : List ℕ → ℚ,
    (∀ t ∈ support, 0 ≤ w t ∧ w t ≤ 1) ∧
    (support.map w).sum = 1 ∧
    ∀ a, a < numActions →
      (support.map fun t => w t * game (insertAction player a t) player).sum ≤
        (support.map fun t => w t * game (insertAction player fixedAction t) player).sum

/-- Index of the first occurrence of `t` in `L` (with the `BEq` instance
induced by decidable equality, fixed once and for all). -/
def listIdx {α : Type} [DecidableEq α] (L : List α) (t : α) : ℕ :=
  List.indexOf t L

/-! Concrete instances used to exercise the model on explicit inputs. -/

/-- A utility table assigning utility `0` to every player at every profile. -/
def constGame : List ℕ → ℕ → ℚ := fun _ _ => 0

/-- An external solver backend that reports `LpStatusOptimal` on every LP. -/
def okSolver : LPData → Int := fun _ => 1

/-- An external solver backend that reports `LpStatusUnbounded` on every LP. -/
def unboundedSolver : LPData → Int := fun _ => -2

/-- One player with one action, over the single-node edgeless network. -/
def N11 : PotluckSolver := ⟨⟨1, 1, constGame⟩, okSolver, ⟨[0], []⟩⟩

/-- Two players with one action each, over the edgeless two-node network. -/
def N21 : PotluckSolver := ⟨⟨2, 1, constGame⟩, okSolver, ⟨[0, 1], []⟩⟩

/-- Two players with one action each, over the two-node network with the
single edge `(0, 1)`. -/
def N21e : PotluckSolver := ⟨⟨2, 1, constGame⟩, okSolver, ⟨[0, 1], [(0, 1)]⟩⟩

/-- Two players with one action each, with a backend reporting unbounded. -/
def N21u : PotluckSolver := ⟨⟨2, 1, constGame⟩, unboundedSolver, ⟨[0, 1], []⟩⟩

/-- One player with zero actions (an empty full Cartesian product). -/
def N10 : PotluckSolver := ⟨⟨1, 0, constGame⟩, okSolver, ⟨[0], []⟩⟩

/-- One player whose supplied network has two nodes, so the network's node
count differs from `numPlayers`. -/
def Nbad : PotluckSolver := ⟨⟨1, 1, constGame⟩, okSolver, ⟨[0, 1], []⟩⟩

/-! Helper lemmas used by several of the claim theorems. -/

theorem list_map_sum_eq {α : Type} (g : α → ℚ) (d : α) :
    ∀ L : List α, (L.map g).sum = ∑ j ∈ Finset.range L.length, g (L.getD j d) := by
  intro L
  induction L with
  | nil => simp
  | cons a L ih =>
    rw [List.map_cons, List.sum_cons, List.length_cons, Finset.sum_range_succ']
    simp only [List.getD_cons_succ, List.getD_cons_zero]
    rw [ih]
    exact (add_comm _ _)

theorem filter_eq_self_of_length_eq {α : Type} (p : α → Bool) :
    ∀ l : List α, (l.filter p).length = l.length → l.filter p = l := by
  intro l
  induction l with
  | nil => simp
  | cons a l ih =>
    intro h
    by_cases hp : p a
    · rw [List.filter_cons_of_pos hp] at h ⊢
      rw [List.length_cons, List.length_cons] at h
      rw [ih (by omega)]
    · rw [List.filter_cons_of_neg hp] at h
      have hle := List.length_filter_le p l
      rw [List.length_cons] at h
      omega

theorem oppTuple_getD :
    ∀ (p : List ℕ) (k n : ℕ),
      (oppTuple k p).getD n 0 = if n < k then p.getD n 0 else p.getD (n + 1) 0 := by
  intro p
  induction p with
  | nil =>
    intro k n
    simp [oppTuple]
  | cons a p ih =>
    intro k n
    cases k with
    | zero => simp [oppTuple]
    | succ k =>
      cases n with
      | zero => simp [oppTuple]
      | succ n =>
        have hstep : oppTuple (k + 1) (a :: p) = a :: oppTuple k p := by
          simp [oppTuple, List.take_succ_cons, List.drop_succ_cons]
        rw [hstep, List.getD_cons_succ, ih k n]
        by_cases h : n < k
        · rw [if_pos h, if_pos (by omega), List.getD_cons_succ]
        · rw [if_neg h, if_neg (by omega), List.getD_cons_succ]

theorem getD_eq_of_oppTuple_eq {k : ℕ} {p p' : List ℕ}
    (hk : oppTuple k p = oppTuple k p') {n : ℕ} (hn : n ≠ k) :
    p.getD n 0 = p'.getD n 0 := by
  rcases Nat.lt_or_ge n k with h | h
  · have h1 := congrArg (fun l => List.getD l n 0) hk
    simp only [oppTuple_getD, if_pos h] at h1
    exact h1
  · have hgt : k < n := by omega
    have h1 := congrArg (fun l => List.getD l (n - 1) 0) hk
    have hnot : ¬ (n - 1 < k) := by omega
    simp only [oppTuple_getD, if_neg hnot] at h1
    have hn1 : n - 1 + 1 = n := by omega
    rwa [hn1] at h1

theorem listIdx_lt_length {α : Type} [DecidableEq α] {L : List α} {t : α}
    (h : t ∈ L) : listIdx L t < L.length :=
  List.indexOf_lt_length.mpr h

theorem nodup_indexOf_getD {α : Type} [DecidableEq α] {L : List α} (hnd : L.Nodup)
    {j : ℕ} (hj : j < L.length) (d : α) : listIdx L (L.getD j d) = j := by
  unfold listIdx
  rw [List.getD_eq_getElem L d hj]
  have hmem : L[j] ∈ L := List.getElem_mem hj
  have hlt : L.indexOf L[j] < L.length := List.indexOf_lt_length.mpr hmem
  have hget : L[L.indexOf L[j]] = L[j] := List.getElem_indexOf hlt
  exact (List.Nodup.getElem_inj_iff hnd).mp hget

theorem getD_map_coeff {α : Type} (c : α → ℚ) (L : List α) (d : α) {j : ℕ}
    (hj : j < L.length) : (L.map c).getD j 0 = c (L.getD j d) := by
  have hj2 : j < (L.map c).length := by simpa using hj
  rw [List.getD_eq_getElem (L.map c) 0 hj2, List.getD_eq_getElem L d hj,
    List.getElem_map]

theorem length_allProfiles (numActions : ℕ) :
    ∀ n : ℕ, (allProfiles numActions n).length = numActions ^ n := by
  intro n
  induction n with
  | zero => simp [allProfiles]
  | succ n ih =>
    rw [allProfiles, List.length_flatMap]
    have hmap : (List.map (List.length ∘ fun a => (allProfiles numActions n).map (a :: ·))
        (List.range numActions)) = List.map (fun _ => numActions ^ n) (List.range numActions) := by
      refine List.map_congr_left fun a _ => ?_
      simp [ih]
    rw [hmap, List.map_const', List.length_range, List.sum_replicate, smul_eq_mul,
      pow_succ, mul_comm]

theorem except_bind_ok {ε α β : Type} (a : α) (f : α → Except ε β) :
    (Except.ok a : Except ε α).bind f = f a := rfl

theorem except_map_ok {ε α β : Type} (f : α → β) (a : α) :
    (Except.ok a : Except ε α).map f = Except.ok (f a) := rfl

theorem consistentStrategies_self_mem (N : PotluckSolver) (profile : List ℕ)
    (player : ℕ) (S : List (List ℕ)) (h : profile ∈ S) :
    oppTuple player profile ∈ N.consistentStrategies profile player S ∧
      N.consistentStrategies profile player S ≠ [] := by
  have hmem : oppTuple player profile ∈ N.consistentStrategies profile player S := by
    unfold PotluckSolver.consistentStrategies
    rw [List.mem_dedup]
    refine List.mem_map_of_mem _ ?_
    rw [List.mem_filter]
    exact ⟨h, by simp [List.all_eq_true]⟩
  refine ⟨hmem, fun hnil => ?_⟩
  rw [hnil] at hmem
  exact (List.not_mem_nil _) hmem

theorem checkBestResponse_of_ne_nil (N : PotluckSolver) (profile : List ℕ)
    (player : ℕ) {c : List (List ℕ)} (h : c ≠ []) :
    N.checkBestResponse profile player c =
      Except.ok (N.solver (N.buildBestResponseLP profile player c) != -1) := by
  have hemp : c.isEmpty = false := by
    cases c with
    | nil => exact absurd rfl h
    | cons t ts => rfl
  rw [PotluckSolver.checkBestResponse, hemp]
  by_cases hs : N.solver (N.buildBestResponseLP profile player c) = -1
  · simp [hs]
  · simp [hs, bne_iff_ne]

theorem checkBestResponse_eq_brOk (N : PotluckSolver) (profile : List ℕ) (player : ℕ)
    (S : List (List ℕ)) (hne : N.consistentStrategies profile player S ≠ []) :
    N.checkBestResponse profile player (N.consistentStrategies profile player S) =
      Except.ok (N.brOk profile player S) :=
  checkBestResponse_of_ne_nil N profile player hne

theorem checkAllPlayers_eq_all (N : PotluckSolver) (profile : List ℕ)
    (S : List (List ℕ)) (hne : ∀ player : ℕ, N.consistentStrategies profile player S ≠ []) :
    ∀ ps : List ℕ,
      N.checkAllPlayers profile S ps = Except.ok (ps.all fun i => N.brOk profile i S) := by
  intro ps
  induction ps with
  | nil => simp [PotluckSolver.checkAllPlayers]
  | cons player rest ih =>
    rw [PotluckSolver.checkAllPlayers,
      checkBestResponse_eq_brOk N profile player S (hne player)]
    cases hb : N.brOk profile player S
    · simp [hb]
    · simpa [hb] using ih

theorem reduceProfilesAux_eq_filter (N : PotluckSolver) (S : List (List ℕ)) :
    ∀ rest : List (List ℕ), (∀ p ∈ rest, p ∈ S) →
      N.reduceProfilesAux S rest =
        Except.ok (rest.filter fun p => (List.range N.numPlayers).all fun i => N.brOk p i S) := by
  intro rest
  induction rest with
  | nil => intro _; simp [PotluckSolver.reduceProfilesAux]
  | cons profile rest ih =>
    intro hsub
    have hmemS : profile ∈ S := hsub profile (List.mem_cons_self profile rest)
    have hne : ∀ player, N.consistentStrategies profile player S ≠ [] :=
      fun player => (consistentStrategies_self_mem N profile player S hmemS).2
    rw [PotluckSolver.reduceProfilesAux, checkAllPlayers_eq_all N profile S hne,
      ih fun p hp => hsub p (List.mem_cons_of_mem _ hp)]
    cases hall : (List.range N.numPlayers).all fun i => N.brOk profile i S
    · simp [List.filter_cons, hall]
    · simp [List.filter_cons, hall]

theorem reduceProfiles_eq_filter (N : PotluckSolver) (S : List (List ℕ)) :
    N.reduceProfiles S = Except.ok (N.reduceFilter S) :=
  reduceProfilesAux_eq_filter N S S fun _ hp => hp

theorem reduceFilter_length_le (N : PotluckSolver) (S : List (List ℕ)) :
    (N.reduceFilter S).length ≤ S.length :=
  List.length_filter_le _ S

theorem solveLoop_spec (N : PotluckSolver) :
    ∀ fuel : ℕ, ∀ S : List (List ℕ), S.length < fuel →
      ∃ R k, N.solveLoop fuel S = Except.ok (R, k) ∧
        N.reduceProfiles R = Except.ok R ∧ k ≤ S.length + 1 := by
  intro fuel
  induction fuel with
  | zero => intro S h; omega
  | succ fuel ih =>
    intro S hfuel
    have hred := reduceProfiles_eq_filter N S
    have hle := reduceFilter_length_le N S
    by_cases hlt : (N.reduceFilter S).length < S.length
    · obtain ⟨R, k, hloop, hfix, hk⟩ := ih (N.reduceFilter S) (by omega)
      refine ⟨R, k + 1, ?_, hfix, by omega⟩
      rw [PotluckSolver.solveLoop, hred, except_bind_ok, if_pos hlt, hloop, except_map_ok]
    · have heq : (N.reduceFilter S).length = S.length := by omega
      have hFS : N.reduceFilter S = S := filter_eq_self_of_length_eq _ S heq
      refine ⟨N.reduceFilter S, 1, ?_, ?_, by omega⟩
      · rw [PotluckSolver.solveLoop, hred, except_bind_ok, if_neg hlt]
      · rw [hFS, hred, hFS]

theorem buildLP_feasible_iff (N : PotluckSolver) (profile : List ℕ) (player : ℕ)
    (L : List (List ℕ)) (hnd : L.Nodup) :
    (N.buildBestResponseLP profile player L).Feasible ↔
      existsRationalizingConjecture N.game N.numActions player (profile.getD player 0) L := by
  simp only [LPData.Feasible, PotluckSolver.buildBestResponseLP,
    existsRationalizingConjecture]
  constructor
  · rintro ⟨x, hb, hs, hc⟩
    refine ⟨fun t => x (listIdx L t), ?_, ?_, ?_⟩
    · intro t ht
      exact hb (listIdx L t) (listIdx_lt_length ht)
    · rw [list_map_sum_eq (fun t => x (listIdx L t)) ([] : List ℕ) L, ← hs]
      refine Finset.sum_congr rfl fun j hj => ?_
      rw [Finset.mem_range] at hj
      rw [nodup_indexOf_getD hnd hj]
    · intro a ha
      have hmem : (L.map fun t => N.game (insertAction player a t) player,
          L.map fun t => N.game (insertAction player (profile.getD player 0) t) player) ∈
          (List.range N.numActions).map fun action =>
            (L.map fun t => N.game (insertAction player action t) player,
             L.map fun t => N.game (insertAction player (profile.getD player 0) t) player) :=
        List.mem_map_of_mem _ (List.mem_range.mpr ha)
      have hca := hc _ hmem
      dsimp only at hca
      have key : ∀ c : List ℕ → ℚ,
          (L.map fun t => x (listIdx L t) * c t).sum =
            ∑ j ∈ Finset.range L.length, (L.map c).getD j 0 * x j := by
        intro c
        rw [list_map_sum_eq (fun t => x (listIdx L t) * c t) ([] : List ℕ) L]
        refine Finset.sum_congr rfl fun j hj => ?_
        rw [Finset.mem_range] at hj
        rw [nodup_indexOf_getD hnd hj, getD_map_coeff c L ([] : List ℕ) hj, mul_comm]
      rw [key, key]
      exact hca
  · rintro ⟨w, hb, hs, hc⟩
    refine ⟨fun j => w (L.getD j []), ?_, ?_, ?_⟩
    · intro j hj
      refine hb (L.getD j []) ?_
      rw [List.getD_eq_getElem L [] hj]
      exact List.getElem_mem hj
    · rw [← hs, list_map_sum_eq w ([] : List ℕ) L]
    · intro c hcmem
      obtain ⟨a, ha, rfl⟩ := List.mem_map.mp hcmem
      dsimp only
      have key2 : ∀ c : List ℕ → ℚ,
          (∑ j ∈ Finset.range L.length, (L.map c).getD j 0 * w (L.getD j [])) =
            (L.map fun t => w t * c t).sum := by
        intro c
        rw [list_map_sum_eq (fun t => w t * c t) ([] : List ℕ) L]
        refine Finset.sum_congr rfl fun j hj => ?_
        rw [Finset.mem_range] at hj
        rw [getD_map_coeff c L ([] : List ℕ) hj, mul_comm]
      rw [key2, key2]
      exact hc a (List.mem_range.mp ha)

/-! The claim theorems. -/

/-- C10: within `reduceProfiles`, the support passed to every feasibility
check is non-empty: each checked profile belongs to the round-start
candidate set and agrees with itself on every neighbor, so its own opponent
tuple is a member of `consistentStrategies(profile, player,
profilesToConsider)`, for every player. -/
theorem support_contains_own_oppTuple (N : PotluckSolver) (profile : List ℕ)
    (player : ℕ) (S : List (List ℕ)) (h : profile ∈ S) :
    oppTuple player profile ∈ N.consistentStrategies profile player S ∧
      N.consistentStrategies profile player S ≠ [] :=
  consistentStrategies_self_mem N profile player S h

theorem support_contains_own_oppTuple_witness :
    ([0] ∈ ([[0]] : List (List ℕ))) ∧
      (oppTuple 0 [0] ∈ N11.consistentStrategies [0] 0 [[0]] ∧
        N11.consistentStrategies [0] 0 [[0]] ≠ []) :=
  ⟨by decide, support_contains_own_oppTuple N11 [0] 0 [[0]] (by decide)⟩

/-- C2: one round of `reduceProfiles` on a snapshot `S` returns (without
raising) exactly the profiles `p` of `S` such that for every player the
best-response feasibility check on the support computed from the same
round-start snapshot `S` succeeds. -/
theorem reduceProfiles_mem_iff (N : PotluckSolver) (S : List (List ℕ)) :
    ∃ R, N.reduceProfiles S = Except.ok R ∧
      ∀ p, p ∈ R ↔ p ∈ S ∧ ∀ player, player < N.numPlayers →
        N.checkBestResponse p player (N.consistentStrategies p player S) =
          Except.ok true := by
  refine ⟨N.reduceFilter S, reduceProfiles_eq_filter N S, fun p => ?_⟩
  unfold PotluckSolver.reduceFilter
  rw [List.mem_filter]
  constructor
  · rintro ⟨hpS, hall⟩
    refine ⟨hpS, fun player hpl => ?_⟩
    rw [List.all_eq_true] at hall
    have hbr := hall player (List.mem_range.mpr hpl)
    rw [checkBestResponse_eq_brOk N p player S
      (consistentStrategies_self_mem N p player S hpS).2, hbr]
  · rintro ⟨hpS, hck⟩
    refine ⟨hpS, ?_⟩
    rw [List.all_eq_true]
    intro player hpl
    rw [List.mem_range] at hpl
    have hck2 := hck player hpl
    rw [checkBestResponse_eq_brOk N p player S
      (consistentStrategies_self_mem N p player S hpS).2] at hck2
    simpa using hck2

/-- C6: the candidate set never grows: whatever one round of
`reduceProfiles` returns is a sublist of its input, so consecutive
candidate-set sizes are non-increasing. -/
theorem reduceProfiles_subset_and_mono (N : PotluckSolver) (S R : List (List ℕ))
    (h : N.reduceProfiles S = Except.ok R) :
    (∀ p ∈ R, p ∈ S) ∧ R.length ≤ S.length := by
  rw [reduceProfiles_eq_filter N S] at h
  have hR : R = N.reduceFilter S := by
    cases h
    rfl
  subst hR
  exact ⟨fun p hp => (List.mem_filter.mp hp).1, List.length_filter_le _ S⟩

theorem reduceProfiles_subset_and_mono_witness :
    (N11.reduceProfiles [[0]] = Except.ok [[0]]) ∧
      ((∀ p ∈ ([[0]] : List (List ℕ)), p ∈ ([[0]] : List (List ℕ))) ∧
        ([[0]] : List (List ℕ)).length ≤ ([[0]] : List (List ℕ)).length) :=
  ⟨rfl, reduceProfiles_subset_and_mono N11 [[0]] [[0]] rfl⟩

/-- C7: idempotence at the fixed point: the candidate set returned by
`solve` is left exactly unchanged by one further application of the
Reduction Operator (`solve` stops when a round leaves the size, hence the
set, unchanged). -/
theorem solve_reduce_fixed_point (N : PotluckSolver) :
    ∃ R, N.solve = Except.ok R ∧ N.reduceProfiles R = Except.ok R := by
  obtain ⟨R, k, hloop, hfix, _⟩ :=
    solveLoop_spec N (N.profiles.length + 1) N.profiles (by omega)
  refine ⟨R, ?_, hfix⟩
  rw [PotluckSolver.solve, hloop, except_map_ok]

/-- C8 (amended): `solve` terminates, and starting from the full Cartesian
product it performs at most `numActions ^ numPlayers + 1` applications of
the Reduction Operator — every application except the last strictly
decreases the non-negative integer candidate-set size, and one final
application detects convergence. -/
theorem solveRounds_le_bound (N : PotluckSolver) :
    ∃ k, N.solveRounds = Except.ok k ∧
      k ≤ N.numActions ^ N.numPlayers + 1 := by
  obtain ⟨R, k, hloop, _, hk⟩ :=
    solveLoop_spec N (N.profiles.length + 1) N.profiles (by omega)
  refine ⟨k, ?_, ?_⟩
  · rw [PotluckSolver.solveRounds, hloop, except_map_ok]
  · have hlen : N.profiles.length = N.numActions ^ N.numPlayers :=
      length_allProfiles N.numActions N.numPlayers
    omega

/-- C8 (counterexample): with `numActions = 0` and `numPlayers = 1` the full
Cartesian product is empty, yet the `while` loop still performs one
application of the Reduction Operator before observing that the size did
not change, exceeding the claimed bound of `numActions ^ numPlayers = 0`
rounds. -/
theorem solveRounds_exceeds_claimed_bound :
    N10.solveRounds = Except.ok 1 ∧
      ¬ (1 ≤ N10.numActions ^ N10.numPlayers) :=
  ⟨rfl, by decide⟩

/-- C9 (amended): the constructor validates only that the network argument
is not `None`: it fails on `None` and succeeds on every non-`None` graph,
with no node-count or node-index validation. -/
theorem init_checks_only_none (gw : PotluckGameWrapper) (solver : LPData → Int) :
    PotluckSolver.init gw solver none = none ∧
      ∀ g : Graph, PotluckSolver.init gw solver (some g) = some ⟨gw, solver, g⟩ :=
  ⟨rfl, fun _ => rfl⟩

/-- C9 (counterexample): a network with two nodes is accepted by the
constructor for a one-player game (node count `2 ≠ 1 = numPlayers`), no
error is raised before or during the elimination rounds, and `solve` runs
to completion. -/
theorem init_accepts_invalid_network :
    (PotluckSolver.init ⟨1, 1, constGame⟩ okSolver (some ⟨[0, 1], []⟩)).isSome = true ∧
      ([0, 1] : List ℕ).length ≠ (1 : ℕ) ∧
      Nbad.solve = Except.ok [[0]] :=
  ⟨by decide, by decide, rfl⟩

/-- C3 (code evaluated at the failing input): on an empty support the check
does not report infeasible; `sum(variables) == 1` over zero variables is
the Python bool `False`, and pulp's `LpProblem.__iadd__` raises a
`TypeError`, modelled as `Except.error`, before the solver runs. -/
theorem checkBestResponse_empty_support_raises :
    N11.checkBestResponse [0] 0 [] =
      Except.error "A False object cannot be passed as a constraint" := rfl

/-- C4 (amended): for a non-empty support, `checkBestResponse` returns
`false` exactly when the external solver reports status `-1`
(`LpStatusInfeasible`) and `true` for every other status — including
not-solved, unbounded and undefined, which are coerced to `true` rather
than surfaced as a distinguishable error. -/
theorem checkBestResponse_status_mapping (N : PotluckSolver) (profile : List ℕ)
    (player : ℕ) (consistent : List (List ℕ)) (h : consistent ≠ []) :
    (N.checkBestResponse profile player consistent = Except.ok false ↔
      N.solver (N.buildBestResponseLP profile player consistent) = -1) ∧
    (N.checkBestResponse profile player consistent = Except.ok true ↔
      N.solver (N.buildBestResponseLP profile player consistent) ≠ -1) := by
  rw [checkBestResponse_of_ne_nil N profile player h]
  constructor
  · simp [bne_eq_false_iff_eq]
  · simp [bne_iff_ne]

theorem checkBestResponse_status_mapping_witness :
    (([[0]] : List (List ℕ)) ≠ []) ∧
      ((N21u.checkBestResponse [0, 0] 0 [[0]] = Except.ok false ↔
          N21u.solver (N21u.buildBestResponseLP [0, 0] 0 [[0]]) = -1) ∧
        (N21u.checkBestResponse [0, 0] 0 [[0]] = Except.ok true ↔
          N21u.solver (N21u.buildBestResponseLP [0, 0] 0 [[0]]) ≠ -1)) :=
  ⟨by decide, checkBestResponse_status_mapping N21u [0, 0] 0 [[0]] (by decide)⟩

/-- C4 (counterexample): when the external solver reports status `-2`
(`LpStatusUnbounded`) on the LP, `checkBestResponse` returns `Except.ok
true` — the ambiguous status is coerced into `true`, not surfaced as a
distinguishable error. -/
theorem unbounded_status_coerced_to_true :
    N21u.solver (N21u.buildBestResponseLP [0, 0] 0 [[0]]) = -2 ∧
      N21u.checkBestResponse [0, 0] 0 [[0]] = Except.ok true :=
  ⟨rfl, rfl⟩

/-- C5: `consistentStrategies` contains the opponent tuple of a profile `p`
of the candidate set iff `p` agrees with the reference profile on every
graph-neighbor of the player (assuming the player is not its own
neighbor, the relation being irreflexive); and when the player has no
neighbors the result is exactly the opponent-tuple projection of the
entire input candidate set. -/
theorem consistentStrategies_spec (N : PotluckSolver) (profile : List ℕ)
    (player : ℕ) (S : List (List ℕ)) (hirr : player ∉ N.network.neighbors player) :
    (∀ p ∈ S, (oppTuple player p ∈ N.consistentStrategies profile player S ↔
        ∀ n ∈ N.network.neighbors player, p.getD n 0 = profile.getD n 0)) ∧
    (N.network.neighbors player = [] →
      N.consistentStrategies profile player S = (S.map (oppTuple player)).dedup) := by
  constructor
  · intro p hpS
    constructor
    · intro hmem
      unfold PotluckSolver.consistentStrategies at hmem
      rw [List.mem_dedup, List.mem_map] at hmem
      obtain ⟨q, hq, hqe⟩ := hmem
      rw [List.mem_filter, List.all_eq_true] at hq
      intro n hn
      have hne : n ≠ player := fun he => hirr (he ▸ hn)
      have hq2 := hq.2 n hn
      rw [beq_iff_eq] at hq2
      have h3 : q.getD n 0 = p.getD n 0 := getD_eq_of_oppTuple_eq hqe hne
      exact h3.symm.trans hq2.symm
    · intro hagree
      unfold PotluckSolver.consistentStrategies
      rw [List.mem_dedup]
      refine List.mem_map_of_mem _ ?_
      rw [List.mem_filter, List.all_eq_true]
      refine ⟨hpS, fun n hn => ?_⟩
      rw [beq_iff_eq]
      exact (hagree n hn).symm
  · intro hnil
    unfold PotluckSolver.consistentStrategies
    rw [hnil]
    simp

theorem consistentStrategies_spec_witness :
    (0 ∉ N21e.network.neighbors 0) ∧
      ((∀ p ∈ ([[0, 0]] : List (List ℕ)),
          (oppTuple 0 p ∈ N21e.consistentStrategies [0, 0] 0 [[0, 0]] ↔
            ∀ n ∈ N21e.network.neighbors 0, p.getD n 0 = ([0, 0] : List ℕ).getD n 0)) ∧
        (N21e.network.neighbors 0 = [] →
          N21e.consistentStrategies [0, 0] 0 [[0, 0]] =
            (([[0, 0]] : List (List ℕ)).map (oppTuple 0)).dedup)) :=
  ⟨by decide, consistentStrategies_spec N21e [0, 0] 0 [[0, 0]] (by decide)⟩

theorem c1_witness_feasible : (N21.buildBestResponseLP [0, 0] 0 [[0]]).Feasible := by
  refine ⟨fun _ => 1, by decide, ?_, ?_⟩
  · show (∑ _j ∈ Finset.range 1, (1 : ℚ)) = 1
    exact @Finset.sum_range_one ℚ _ fun _ => 1
  · intro c hc
    simp only [PotluckSolver.buildBestResponseLP, List.mem_map, List.mem_range] at hc
    obtain ⟨a, ha, rfl⟩ := hc
    exact le_refl _

/-- C1: `checkBestResponse` reports `true` iff there exists a probability
distribution (non-negative weights in `[0, 1]` summing to `1`) over the
support under which, for every action of the player, the expected utility
of that action is at most the expected utility of the fixed action
`profile[player]` — given that the support has no duplicates (it
enumerates a Python set) and that the external solver decides feasibility
of the constructed LP, reporting status `-1` exactly on infeasible LPs. -/
theorem checkBestResponse_true_iff_rationalizing (N : PotluckSolver)
    (profile : List ℕ) (player : ℕ) (consistent : List (List ℕ))
    (hnd : consistent.Nodup)
    (hsolver : N.solver (N.buildBestResponseLP profile player consistent) = -1 ↔
      ¬ (N.buildBestResponseLP profile player consistent).Feasible) :
    N.checkBestResponse profile player consistent = Except.ok true ↔
      existsRationalizingConjecture N.game N.numActions player
        (profile.getD player 0) consistent := by
  rw [← buildLP_feasible_iff N profile player consistent hnd]
  by_cases hc0 : consistent = []
  · subst hc0
    constructor
    · intro h
      simp [PotluckSolver.checkBestResponse] at h
    · intro hF
      exfalso
      obtain ⟨x, _, hs, _⟩ := hF
      simp [PotluckSolver.buildBestResponseLP] at hs
  · rw [checkBestResponse_of_ne_nil N profile player hc0]
    by_cases hs2 : N.solver (N.buildBestResponseLP profile player consistent) = -1
    · have hnF := hsolver.mp hs2
      constructor
      · intro h
        simp [hs2] at h
      · intro hF
        exact absurd hF hnF
    · have hF : (N.buildBestResponseLP profile player consistent).Feasible :=
        not_not.mp fun hnF => hs2 (hsolver.mpr hnF)
      constructor
      · intro _
        exact hF
      · intro _
        simp only [Except.ok.injEq, bne_iff_ne]
        exact hs2

theorem checkBestResponse_true_iff_rationalizing_witness :
    (([[0]] : List (List ℕ)).Nodup ∧
      (N21.solver (N21.buildBestResponseLP [0, 0] 0 [[0]]) = -1 ↔
        ¬ (N21.buildBestResponseLP [0, 0] 0 [[0]]).Feasible)) ∧
      (N21.checkBestResponse [0, 0] 0 [[0]] = Except.ok true ↔
        existsRationalizingConjecture N21.game N21.numActions 0
          (([0, 0] : List ℕ).getD 0 0) [[0]]) :=
  ⟨⟨by decide, iff_of_false (by decide) (not_not_intro c1_witness_feasible)⟩,
    checkBestResponse_true_iff_rationalizing N21 [0, 0] 0 [[0]] (by decide)
      (iff_of_false (by decide) (not_not_intro c1_witness_feasible))⟩

end PCE
